import Mathlib

/-!
Verification of the constituency-counts HTML parser (src/parser.py).

This file gives a shallow embedding of parser.py:

- HTML markup is modelled by the Node tree; the BeautifulSoup capabilities
  used by the source (find_all with a tag name, which returns matching
  elements of a subtree in document pre-order, and .text, which concatenates
  every text fragment of a subtree) are modelled by findAllList / descendants
  and nodeText.
- The Python method str.replace(pat, rep), which rewrites every non-overlapping
  occurrence of pat left to right, is modelled by pyReplace (fuel-based so
  that it is structurally recursive; the fuel, the length of the subject,
  is an upper bound on the number of scanning steps).
- The regular-expression search re.search("Electorate: [\d,]" + "{1,}") is
  modelled by searchElectorate: the leftmost position where the literal
  "Electorate: " is followed by at least one digit-or-comma character wins,
  and the greedy quantifier takes the maximal such run.  (The Python class \d
  is modelled by Char.isDigit; the source site data is ASCII.)
- The Constituency class keeps its name; its to_pandas method is modelled
  as returning Except: a pandas column assignment df[col] = xs on an empty
  frame sets the index to the length of the first assigned column, and every
  later assignment raises ValueError when the lengths differ.  The source
  initialises electorate to an empty Python list and parse overwrites it
  with the matched electorate string; the model types the field as String.
- pd.concat unions the columns of its arguments (modern pandas keeps the
  column order of the first frame and appends new columns), so the electorate
  column of the per-constituency frames survives into the merged frame; the
  merged table is therefore modelled as a list of six-field Rows.
  DataFrame.to_csv(index=False, header=False) is modelled by toCsv: one
  comma-joined line per row, no header line, no index column.  (None of the
  produced fields contains a comma, a quote or a newline, so the pandas csv
  quoting never fires and plain joining is faithful.)
- Python exceptions are modelled by Except with one constructor per raise
  site kind: structureError for the IndexError at find_all("table")[1],
  attributeError for calling .group(0) on a failed re.search, and
  recordIndexError for the IndexError at constituency_names[con_count] or
  electorates[con_count].  The ValueError raised inside to_pandas is caught
  by the try/except of the source and is modelled by the separate ShapeError type.
-/

/-- One HTML node: an element with a tag and children, or a text fragment. -/
inductive Node where
  | text : String → Node
  | elem : String → List Node → Node

mutual
/-- BeautifulSoup .text of a node: every text fragment of the subtree,
concatenated in document order. -/
def nodeText : Node → String
  | .text s => s
  | .elem _ cs => nodeTextList cs
/-- Concatenated text of a forest, in order. -/
def nodeTextList : List Node → String
  | [] => ""
  | n :: ns => nodeText n ++ nodeTextList ns
end

mutual
/-- All elements with the given tag inside a node, the node itself included
when it matches, in document pre-order (BeautifulSoup find_all order). -/
def findAllNode (tag : String) : Node → List Node
  | .text _ => []
  | .elem t cs => (if t = tag then [Node.elem t cs] else []) ++ findAllList tag cs
/-- All elements with the given tag inside a forest, in document pre-order.
Applied to the document roots this is soup.find_all(tag). -/
def findAllList (tag : String) : List Node → List Node
  | [] => []
  | n :: ns => findAllNode tag n ++ findAllList tag ns
end

/-- element.find_all(tag): every matching element strictly inside the
element (the element itself excluded), in document pre-order. -/
def descendants (tag : String) (n : Node) : List Node :=
  match n with
  | .text _ => []
  | .elem _ cs => findAllList tag cs

/-- Runs f over a list of nodes and concatenates the results: the shape of
the nested for loops of the source that append for every tr of a table. -/
def gatherAll (f : Node → List Node) : List Node → List Node
  | [] => []
  | n :: ns => f n ++ gatherAll f ns

/-- Scanning core of Python str.replace: rewrites every non-overlapping
occurrence of pat in the subject, left to right.  The first argument is
fuel; one unit is spent per subject position scanned, so fuel at least the
subject length makes the scan complete.  (With exhausted fuel the rest of
the subject is returned unchanged; callers always pass enough.) -/
def replaceListAux : Nat → List Char → List Char → List Char → List Char
  | 0, _, _, s => s
  | _ + 1, _, _, [] => []
  | fuel + 1, pat, rep, c :: rest =>
    if pat.isPrefixOf (c :: rest) && !pat.isEmpty then
      rep ++ replaceListAux fuel pat rep ((c :: rest).drop pat.length)
    else
      c :: replaceListAux fuel pat rep rest

/-- Python s.replace(pat, rep) for a non-empty pat: every non-overlapping
occurrence of pat in s is rewritten to rep, scanning left to right.  (The
source never calls replace with an empty pattern; for an empty pattern this
model is the identity.) -/
def pyReplace (s pat rep : String) : String :=
  String.mk (replaceListAux s.data.length pat.data rep.data s.data)

/-- The literal part of the electorate regular expression. -/
def electoratePat : List Char := "Electorate: ".data

/-- The character class [\d,] of the electorate regular expression. -/
def isDigitOrComma (ch : Char) : Bool := ch.isDigit || ch == ','

/-- Tries the electorate pattern at one position: the literal
"Electorate: " followed by a maximal non-empty run of [\d,] characters.
Returns the full matched text (re.Match.group(0)). -/
def matchElectorateAt (s : List Char) : Option (List Char) :=
  if electoratePat.isPrefixOf s then
    let run := (s.drop electoratePat.length).takeWhile isDigitOrComma
    if run.isEmpty then none else some (electoratePat ++ run)
  else none

/-- Model of the re.search call on the electorate pattern: the match at the leftmost
position where the whole pattern matches, none when no position matches. -/
def searchElectorate : List Char → Option (List Char)
  | [] => none
  | c :: rest =>
    match matchElectorateAt (c :: rest) with
    | some m => some m
    | none => searchElectorate rest

/-- The exceptions parse can propagate: the IndexError of
soup.find_all("table")[1] on a short list, the AttributeError of calling
.group(0) on a failed re.search, and the IndexError of
constituency_names[con_count] / electorates[con_count]. -/
inductive PyError where
  | structureError
  | attributeError
  | recordIndexError
deriving DecidableEq

/-- The ValueError pandas raises inside Constituency.to_pandas when a column
assignment length differs from the frame index length (the ShapeError of
the spec); caught by the try/except of the source at assembly. -/
inductive ShapeError where
  | valueError
deriving DecidableEq

/-- The Constituency class of parser.py: the name of one constituency, four
parallel per-candidate sequences, and the electorate figure.  The source
initialises electorate to an empty Python list and parse overwrites it with
the matched electorate string; the model types it as String throughout. -/
structure Constituency where
  name : String
  candidates : List String
  parties : List String
  votes : List String
  percent : List String
  electorate : String
deriving DecidableEq

/-- Constituency.__init__: the given name, all sequences empty. -/
def Constituency.create (name : String) : Constituency :=
  { name := name, candidates := [], parties := [], votes := [], percent := [],
    electorate := "" }

/-- One row of the (merged) pandas DataFrame: the columns of the frame
returned by Constituency.to_pandas, in their column order. -/
structure Row where
  names : String
  candidates : String
  parties : String
  votes : String
  percent : String
  electorate : String
deriving DecidableEq

/-- Builds the rows of the DataFrame populated by Constituency.to_pandas:
the i-th row takes the i-th entry of every column. -/
def zipRows : List String → List String → List String → List String →
    List String → List String → List Row
  | n :: ns, c :: cs, p :: ps, v :: vs, q :: qs, e :: es =>
    { names := n, candidates := c, parties := p, votes := v, percent := q,
      electorate := e } :: zipRows ns cs ps vs qs es
  | _, _, _, _, _, _ => []

/-- Constituency.to_pandas.  names is the constituency name repeated once
per candidate and electorates the electorate repeated alongside; the first
column assignment to the empty frame sets the index length to names.length,
and each following assignment succeeds exactly when its list has that
length, raising ValueError otherwise.  On success the frame holds one row
per candidate. -/
def Constituency.to_pandas (c : Constituency) : Except ShapeError (List Row) :=
  let names := List.replicate c.candidates.length c.name
  let electorates := List.replicate names.length c.electorate
  if c.candidates.length = names.length ∧ c.parties.length = names.length ∧
      c.votes.length = names.length ∧ c.percent.length = names.length ∧
      electorates.length = names.length then
    .ok (zipRows names c.candidates c.parties c.votes c.percent electorates)
  else
    .error .valueError

/-- One cell of the decode loop of parse: dispatch on count % 4.  The cell
text has every comma removed; a candidate cell additionally has every
asterisk removed and a percentage cell every percent sign removed, exactly
the item.text.replace chains of the source. -/
def decodeCell (count : Nat) (c : Constituency) (txt : String) : Constituency :=
  if count % 4 = 0 then
    { c with candidates := c.candidates ++ [pyReplace (pyReplace txt "," "") "*" ""] }
  else if count % 4 = 1 then
    { c with parties := c.parties ++ [pyReplace txt "," ""] }
  else if count % 4 = 2 then
    { c with votes := c.votes ++ [pyReplace txt "," ""] }
  else
    { c with percent := c.percent ++ [pyReplace (pyReplace txt "," "") "%" ""] }

/-- The decode loop of parse over a flat cell-text stream: count is
incremented after every cell regardless of branch. -/
def decodeCells : List String → Nat → Constituency → Constituency
  | [], _, c => c
  | s :: rest, count, c => decodeCells rest (count + 1) (decodeCell count c s)

/-- The flat cell-text stream of one (nested) table, as the source iterates
it: for every tr of the table, for every td of that tr, the text of the cell, in
document order. -/
def tableCells (t : Node) : List String :=
  (gatherAll (fun row => descendants "td" row) (descendants "tr" t)).map nodeText

/-- Processing of one nested table in parse: a Constituency created with the
given name, its electorate set, then the decode loop run over the cell
stream of the table with count starting at 0. -/
def buildConstituency (name elec : String) (t : Node) : Constituency :=
  decodeCells (tableCells t) 0 { Constituency.create name with electorate := elec }

/-- Python list indexing xs[k]: IndexError when k is out of range. -/
def listIndex (xs : List String) (k : Nat) : Except PyError String :=
  match xs.get? k with
  | some x => .ok x
  | none => .error .recordIndexError

/-- The per-constituency loop of parse: for the con_count-th nested table,
look up constituency_names[con_count] and electorates[con_count] (IndexError
aborts the whole run), build the Constituency, increment con_count and
continue with the remaining tables. -/
def buildConstituencies (names elecs : List String) :
    List Node → Nat → Except PyError (List Constituency)
  | [], _ => .ok []
  | t :: rest, conCount =>
    match listIndex names conCount with
    | .error e => .error e
    | .ok n =>
      match listIndex elecs conCount with
      | .error e => .error e
      | .ok el =>
        match buildConstituencies names elecs rest (conCount + 1) with
        | .error e => .error e
        | .ok cs => .ok (buildConstituency n el t :: cs)

/-- The electorate collection of parse over the paragraph blocks of the
results table: re.search for the electorate pattern on the text of the block,
then .group(0) — an AttributeError when the search found nothing — then the
"Electorate: " literal and every comma removed from the match. -/
def collectElectorates : List Node → Except PyError (List String)
  | [] => .ok []
  | p :: rest =>
    match searchElectorate (nodeText p).data with
    | none => .error .attributeError
    | some m =>
      let v := pyReplace (pyReplace (String.mk m) "Electorate: " "") "," ""
      match collectElectorates rest with
      | .error e => .error e
      | .ok vs => .ok (v :: vs)

/-- The constituency-name side list of parse: the text of every b element of
every tr of the results table, in document order. -/
def collectConstituencyNames (big_table : Node) : List String :=
  (gatherAll (fun tr => descendants "b" tr) (descendants "tr" big_table)).map nodeText

/-- The electorate side list of parse: the electorate extraction run over
every p element of every tr of the results table, in document order.  (The
source interleaves the b and p scans per tr; the two lists are filled
independently, so collecting them in two passes yields the same lists and
the same error.) -/
def collectElectorateFigures (big_table : Node) : Except PyError (List String) :=
  collectElectorates (gatherAll (fun tr => descendants "p" tr) (descendants "tr" big_table))

/-- The assembly loop of parse: for every Constituency try to_pandas and
concatenate the produced rows; a ValueError (ShapeError) contributes no rows
and the loop continues. -/
def assembleRows : List Constituency → List Row
  | [] => []
  | c :: rest =>
    (match c.to_pandas with
     | .ok rs => rs
     | .error _ => []) ++ assembleRows rest

/-- The final names-column normalisation of parse:
dataframe['names'] = dataframe['names'].str.replace(',', ''). -/
def stripRowNameCommas (r : Row) : Row :=
  { r with names := pyReplace r.names "," "" }

/-- The parse function of parser.py on an already-parsed document (the list
of top-level nodes): select soup.find_all("table")[1] as the results table,
collect the two side lists, build one Constituency per nested table, run the
assembly loop, and strip commas from the names column. -/
def parse (doc : List Node) : Except PyError (List Row) :=
  match (findAllList "table" doc).get? 1 with
  | none => .error .structureError
  | some big_table =>
    match collectElectorateFigures big_table with
    | .error e => .error e
    | .ok electorates =>
      match buildConstituencies (collectConstituencyNames big_table) electorates
          (descendants "table" big_table) 0 with
      | .error e => .error e
      | .ok constituencies =>
        .ok ((assembleRows constituencies).map stripRowNameCommas)

/-- The ordered fields one row contributes to the csv output: the merged
column order of the merged frame (pd.concat keeps the columns of the first frame, here the
five initial ones, and appends the new electorate column brought in by the
to_pandas frames). -/
def rowFields (r : Row) : List String :=
  [r.names, r.candidates, r.parties, r.votes, r.percent, r.electorate]

/-- One line of DataFrame.to_csv(index=False, header=False): the fields of
the row comma-joined, no index column. -/
def csvLine (r : Row) : String :=
  r.names ++ "," ++ r.candidates ++ "," ++ r.parties ++ "," ++ r.votes ++ ","
    ++ r.percent ++ "," ++ r.electorate

/-- DataFrame.to_csv(index=False, header=False): one line per row, each
terminated by a newline, and no header line. -/
def toCsv : List Row → String
  | [] => ""
  | r :: rest => csvLine r ++ "\n" ++ toCsv rest

/-- The cells of a flat stream whose running index (starting from the given
count) is congruent to r modulo 4: the positions the decode loop dispatches
to one fixed field. -/
def selectMod4 (r : Nat) : List String → Nat → List String
  | [], _ => []
  | s :: rest, count => (if count % 4 = r then [s] else []) ++ selectMod4 r rest (count + 1)

/-- A string holds no comma character. -/
def noComma (s : String) : Prop := ',' ∉ s.data

/-- Written from the words of the spec, for comparison with the source
percentage normalisation: strip a trailing percent sign (and nothing
else). -/
def specStripTrailingPercent (s : String) : String :=
  match s.data.getLast? with
  | some ch => if ch = '%' then String.mk s.data.dropLast else s
  | none => s

/-- Written from the words of the spec, for comparison with the source
table selection: the table-like elements at the top level of the document. -/
def specTopLevelTables (doc : List Node) : List Node :=
  doc.filter (fun n =>
    match n with
    | .elem t _ => t = "table"
    | .text _ => false)

/-- The results table of the well-formed example document of the spec: one bold
constituency name, one electorate paragraph, and one nested table with one
well-formed candidate row. -/
def docMainResults : Node :=
  Node.elem "table"
    [ Node.elem "tr"
        [ Node.elem "b" [Node.text "Anytown"],
          Node.elem "p" [Node.text "Electorate: 54,321"] ],
      Node.elem "table"
        [ Node.elem "tr"
            [ Node.elem "td" [Node.text "J. Doe*"],
              Node.elem "td" [Node.text "Indep"],
              Node.elem "td" [Node.text "1,234"],
              Node.elem "td" [Node.text "45.6%"] ] ] ]

/-- The well-formed example document of the spec: a decorative first table,
then the results table docMainResults. -/
def docMain : List Node :=
  [ Node.elem "table" [], docMainResults ]

/-- The single row parse extracts from docMain. -/
def rowAnytown : Row :=
  { names := "Anytown", candidates := "J. Doe", parties := "Indep",
    votes := "1234", percent := "45.6", electorate := "54321" }

/-- A document with a single top-level table that itself contains a nested
table: one table-like element at the top level, two in document pre-order. -/
def docOneTopTable : List Node :=
  [ Node.elem "table" [ Node.elem "table" [] ] ]

/-- A document whose results table contains a paragraph block with no
electorate figure. -/
def docPlainParagraph : List Node :=
  [ Node.elem "table" [],
    Node.elem "table" [ Node.elem "tr" [ Node.elem "p" [Node.text "hello"] ] ] ]

/-- A document whose results table contains one nested table but no bold
name markers and no electorate paragraphs. -/
def docUnmatchedTable : List Node :=
  [ Node.elem "table" [],
    Node.elem "table" [ Node.elem "table" [] ] ]

/-- A nested table whose percentage cell carries an interior percent sign
besides the trailing one. -/
def tableInteriorPercent : Node :=
  Node.elem "table"
    [ Node.elem "tr"
        [ Node.elem "td" [Node.text "A"],
          Node.elem "td" [Node.text "B"],
          Node.elem "td" [Node.text "C"],
          Node.elem "td" [Node.text "1%2%"] ] ]

/-- A malformed nested table: three cells, not a multiple of four. -/
def tableThreeCells : Node :=
  Node.elem "table"
    [ Node.elem "tr"
        [ Node.elem "td" [Node.text "x"],
          Node.elem "td" [Node.text "y"],
          Node.elem "td" [Node.text "z"] ] ]

/-- A well-formed nested table with one candidate row. -/
def tableFourCells : Node :=
  Node.elem "table"
    [ Node.elem "tr"
        [ Node.elem "td" [Node.text "N. Good"],
          Node.elem "td" [Node.text "Party"],
          Node.elem "td" [Node.text "2,000"],
          Node.elem "td" [Node.text "50.0%"] ] ]

/-- A well-formed Constituency with one candidate, for concrete witnesses. -/
def conAnytown : Constituency :=
  { name := "Anytown", candidates := ["J. Doe"], parties := ["Indep"],
    votes := ["1234"], percent := ["45.6"], electorate := "54321" }

/-- A malformed Constituency: parties shorter than candidates. -/
def conMismatched : Constituency :=
  { name := "Oxbridge", candidates := ["A. Scholar"], parties := [],
    votes := ["10"], percent := ["100.0"], electorate := "99" }

/-- Replacement on an empty subject yields an empty result for any fuel. -/
theorem replaceListAux_nil (fuel : Nat) (pat rep : List Char) :
    replaceListAux fuel pat rep [] = [] := by
  cases fuel <;> rfl

/-- Single-character removal is complete: with enough fuel the removed
character does not occur in the result. -/
theorem not_mem_replaceChar (ch : Char) :
    ∀ (fuel : Nat) (s : List Char), s.length ≤ fuel →
      ch ∉ replaceListAux fuel [ch] [] s := by
  intro fuel
  induction fuel with
  | zero =>
    intro s hs
    have : s = [] := List.eq_nil_of_length_eq_zero (Nat.le_zero.mp hs)
    subst this
    simp [replaceListAux]
  | succ fuel ih =>
    intro s hs
    cases s with
    | nil => simp [replaceListAux]
    | cons c rest =>
      by_cases hc : ch = c
      · subst hc
        simp only [replaceListAux, List.isPrefixOf, Bool.and_true, beq_self_eq_true,
          List.isEmpty_cons, Bool.not_false]
        simp only [List.drop_succ_cons, List.drop_zero, List.nil_append]
        have : List.isPrefixOf [ch] (ch :: rest) = true := by
          simp [List.isPrefixOf]
        simp only [this, Bool.true_and, if_true]
        exact ih rest (by simp only [List.length_cons] at hs; omega)
      · have hpre : List.isPrefixOf [ch] (c :: rest) = false := by
          simp [List.isPrefixOf, hc]
        simp only [replaceListAux, hpre, Bool.false_and, if_neg, Bool.false_eq_true,
          not_false_iff, List.mem_cons]
        intro hmem
        rcases hmem with h | h
        · exact hc h
        · exact ih rest (by simp only [List.length_cons] at hs; omega) h

/-- Replacement by the empty string only erases: every character of the result
comes from the subject. -/
theorem mem_replaceListAux_empty (pat : List Char) :
    ∀ (fuel : Nat) (s : List Char) (a : Char),
      a ∈ replaceListAux fuel pat [] s → a ∈ s := by
  intro fuel
  induction fuel with
  | zero => intro s a h; exact h
  | succ fuel ih =>
    intro s a h
    cases s with
    | nil => exact absurd h (by simp [replaceListAux])
    | cons c rest =>
      simp only [replaceListAux] at h
      by_cases hcond : (pat.isPrefixOf (c :: rest) && !pat.isEmpty) = true
      · rw [if_pos hcond] at h
        simp only [List.nil_append] at h
        have := ih _ a h
        exact List.drop_subset _ _ this
      · rw [if_neg hcond] at h
        rcases List.mem_cons.mp h with h | h
        · exact h ▸ List.mem_cons_self _ _
        · exact List.mem_cons_of_mem _ (ih rest a h)

/-- Comma removal leaves no comma in the resulting string. -/
theorem noComma_pyReplaceComma (s : String) : noComma (pyReplace s "," "") := by
  have hpat : ("," : String).data = [','] := rfl
  show ',' ∉ (pyReplace s "," "").data
  simp only [pyReplace, hpat]
  exact not_mem_replaceChar ',' s.data.length s.data (Nat.le_refl _)

/-- Removing any pattern from a comma-free string keeps it comma-free. -/
theorem noComma_pyReplace_keep (s pat : String) (h : noComma s) :
    noComma (pyReplace s pat "") := by
  intro hmem
  exact h (mem_replaceListAux_empty pat.data s.data.length s.data ',' hmem)

/-- A list is a Boolean-test prefix of itself followed by anything. -/
theorem isPrefixOf_append_self : ∀ (l r : List Char), l.isPrefixOf (l ++ r) = true := by
  intro l
  induction l with
  | nil => intro r; simp [List.isPrefixOf]
  | cons a as ih => intro r; simp [List.isPrefixOf, ih r]

/-- When the first pattern character never occurs in the subject, replacement
is the identity. -/
theorem replace_no_head (p0 : Char) (pr rep : List Char) :
    ∀ (fuel : Nat) (s : List Char), p0 ∉ s →
      replaceListAux fuel (p0 :: pr) rep s = s := by
  intro fuel
  induction fuel with
  | zero => intro s _; rfl
  | succ fuel ih =>
    intro s hs
    cases s with
    | nil => rfl
    | cons c rest =>
      have hne : p0 ≠ c := fun h => hs (h ▸ List.mem_cons_self _ _)
      have hpre : List.isPrefixOf (p0 :: pr) (c :: rest) = false := by
        simp [List.isPrefixOf, hne]
      simp only [replaceListAux, hpre, Bool.false_and, if_neg, Bool.false_eq_true,
        not_false_iff, List.cons.injEq, true_and]
      exact ih rest (fun h => hs (List.mem_cons_of_mem _ h))

/-- Removing the electorate literal from a match built as the literal followed
by a run without the letter E leaves exactly the run. -/
theorem replace_electoratePat_exact (run : List Char) (hE : 'E' ∉ run) :
    ∀ (fuel : Nat), (electoratePat ++ run).length ≤ fuel →
      replaceListAux fuel electoratePat [] (electoratePat ++ run) = run := by
  have hpat : electoratePat = 'E' :: "lectorate: ".data := rfl
  intro fuel hfuel
  cases fuel with
  | zero =>
    exfalso
    rw [hpat] at hfuel
    simp at hfuel
  | succ fuel =>
    have hs : electoratePat ++ run = 'E' :: ("lectorate: ".data ++ run) := by
      rw [hpat]; rfl
    rw [hs]
    have hpre : List.isPrefixOf electoratePat ('E' :: ("lectorate: ".data ++ run)) = true := by
      rw [← hs]; exact isPrefixOf_append_self electoratePat run
    have hempty : electoratePat.isEmpty = false := rfl
    rw [hpat] at hpre
    simp only [replaceListAux, hpre, hempty, Bool.not_false, Bool.and_true, if_true,
      List.nil_append, hpat]
    have hdrop : ('E' :: ("lectorate: ".data ++ run)).drop ('E' :: "lectorate: ".data).length
        = run := by
      rw [← hs, ← hpat]
      exact List.drop_left electoratePat run
    rw [hdrop]
    exact replace_no_head 'E' "lectorate: ".data [] fuel run hE

/-- Shape of a successful electorate search: the match is the literal followed
by a non-empty run of digit-or-comma characters. -/
theorem searchElectorate_shape :
    ∀ (l m : List Char), searchElectorate l = some m →
      ∃ run, m = electoratePat ++ run ∧ run ≠ [] ∧
        ∀ ch ∈ run, isDigitOrComma ch = true := by
  intro l
  induction l with
  | nil => intro m h; simp [searchElectorate] at h
  | cons c rest ih =>
    intro m h
    simp only [searchElectorate] at h
    rcases hm : matchElectorateAt (c :: rest) with _ | m0
    · rw [hm] at h
      exact ih m h
    · rw [hm] at h
      have hmm := Option.some.inj h
      subst hmm
      simp only [matchElectorateAt] at hm
      by_cases hpre : electoratePat.isPrefixOf (c :: rest) = true
      · rw [if_pos hpre] at hm
        set run := ((c :: rest).drop electoratePat.length).takeWhile isDigitOrComma with hrun
        by_cases hemp : run.isEmpty = true
        · rw [if_pos hemp] at hm; cases hm
        · rw [if_neg hemp] at hm
          have hmm := Option.some.inj hm
          subst hmm
          refine ⟨run, rfl, ?_, ?_⟩
          · intro hnil
            rw [hnil] at hemp
            exact hemp rfl
          · intro ch hch
            exact List.mem_takeWhile_imp hch
      · rw [if_neg hpre] at hm; cases hm

/-- The electorate value computed from a match - literal removed, commas
removed - consists of decimal digits only. -/
theorem electorateValue_digits (m : List Char) (h : ∃ run, m = electoratePat ++ run ∧
    run ≠ [] ∧ ∀ ch ∈ run, isDigitOrComma ch = true) :
    ∀ ch ∈ (pyReplace (pyReplace (String.mk m) "Electorate: " "") "," "").data,
      ch.isDigit = true := by
  rcases h with ⟨run, rfl, _, hdc⟩
  have hE : 'E' ∉ run := by
    intro hmem
    have := hdc 'E' hmem
    simp [isDigitOrComma] at this
  have hdata : ("Electorate: " : String).data = electoratePat := rfl
  have hinner : pyReplace (String.mk (electoratePat ++ run)) "Electorate: " ""
      = String.mk run :=
    congrArg String.mk (replace_electoratePat_exact run hE _ (Nat.le_refl _))
  rw [hinner]
  intro ch hch
  have hcomma : ("," : String).data = [','] := rfl
  simp only [pyReplace, hcomma] at hch
  have hmem : ch ∈ run := mem_replaceListAux_empty [','] run.length run ch hch
  have hne : ch ≠ ',' := by
    intro hcc
    subst hcc
    exact not_mem_replaceChar ',' run.length run (Nat.le_refl _) hch
  have := hdc ch hmem
  simp only [isDigitOrComma, Bool.or_eq_true, beq_iff_eq] at this
  rcases this with h | h
  · exact h
  · exact absurd h hne

/-- Every collected electorate figure is comma-free and consists of digits
only. -/
theorem collectElectorates_ok_mem :
    ∀ (ps : List Node) (es : List String), collectElectorates ps = .ok es →
      ∀ e ∈ es, noComma e ∧ e.data.all (fun ch => ch.isDigit) = true := by
  intro ps
  induction ps with
  | nil =>
    intro es h
    simp only [collectElectorates] at h
    cases h
    intro e he
    simp at he
  | cons p rest ih =>
    intro es h
    simp only [collectElectorates] at h
    rcases hm : searchElectorate (nodeText p).data with _ | m
    · rw [hm] at h; cases h
    · rw [hm] at h
      rcases hrec : collectElectorates rest with e0 | vs
      · rw [hrec] at h; cases h
      · rw [hrec] at h
        cases h
        intro e he
        rcases List.mem_cons.mp he with rfl | he
        · constructor
          · exact noComma_pyReplaceComma _
          · rw [List.all_eq_true]
            exact electorateValue_digits m (searchElectorate_shape _ m hm)
        · exact ih vs hrec e he

/-- Closed form of the decode loop: the four parallel sequences receive
exactly the cells whose running index is congruent to 0, 1, 2 and 3 modulo
4, each under its normalisation, appended to the accumulator. -/
theorem decodeCells_eq :
    ∀ (cells : List String) (count : Nat) (c : Constituency),
      decodeCells cells count c =
        { c with
          candidates := c.candidates ++ (selectMod4 0 cells count).map
            (fun s => pyReplace (pyReplace s "," "") "*" ""),
          parties := c.parties ++ (selectMod4 1 cells count).map
            (fun s => pyReplace s "," ""),
          votes := c.votes ++ (selectMod4 2 cells count).map
            (fun s => pyReplace s "," ""),
          percent := c.percent ++ (selectMod4 3 cells count).map
            (fun s => pyReplace (pyReplace s "," "") "%" "") } := by
  intro cells
  induction cells with
  | nil => intro count c; simp [decodeCells, selectMod4]
  | cons s rest ih =>
    intro count c
    have hmod : count % 4 = 0 ∨ count % 4 = 1 ∨ count % 4 = 2 ∨ count % 4 = 3 := by omega
    simp only [decodeCells]
    rw [ih]
    rcases hmod with h | h | h | h <;>
      simp [decodeCell, selectMod4, h, List.append_assoc]

/-- Closed form of one nested-table decode: the Record holds the given name
and electorate and the four selections of the cell stream starting at
count 0. -/
theorem buildConstituency_eq (name elec : String) (t : Node) :
    buildConstituency name elec t =
      { name := name,
        candidates := (selectMod4 0 (tableCells t) 0).map
          (fun s => pyReplace (pyReplace s "," "") "*" ""),
        parties := (selectMod4 1 (tableCells t) 0).map (fun s => pyReplace s "," ""),
        votes := (selectMod4 2 (tableCells t) 0).map (fun s => pyReplace s "," ""),
        percent := (selectMod4 3 (tableCells t) 0).map
          (fun s => pyReplace (pyReplace s "," "") "%" ""),
        electorate := elec } := by
  simp [buildConstituency, Constituency.create, decodeCells_eq]

/-- Every entry of the four decoded sequences of a built Record is comma-free. -/
theorem buildConstituency_noComma (name elec : String) (t : Node) :
    (∀ s ∈ (buildConstituency name elec t).candidates, noComma s) ∧
    (∀ s ∈ (buildConstituency name elec t).parties, noComma s) ∧
    (∀ s ∈ (buildConstituency name elec t).votes, noComma s) ∧
    (∀ s ∈ (buildConstituency name elec t).percent, noComma s) := by
  rw [buildConstituency_eq]
  refine ⟨?_, ?_, ?_, ?_⟩ <;>
    · intro s hs
      simp only [List.mem_map] at hs
      rcases hs with ⟨x, _, rfl⟩
      first
        | exact noComma_pyReplace_keep _ _ (noComma_pyReplaceComma x)
        | exact noComma_pyReplaceComma x

/-- A successful Python index lookup returns the list entry at that position. -/
theorem listIndex_ok (xs : List String) (k : Nat) (x : String)
    (h : listIndex xs k = .ok x) : xs.get? k = some x := by
  simp only [listIndex] at h
  rcases hx : xs.get? k with _ | y
  · rw [hx] at h; cases h
  · rw [hx] at h; cases h; rfl

/-- A failed Python index lookup is the record IndexError and the index is out
of range. -/
theorem listIndex_err (xs : List String) (k : Nat) (e : PyError)
    (h : listIndex xs k = .error e) : e = .recordIndexError ∧ xs.length ≤ k := by
  simp only [listIndex] at h
  rcases hx : xs.get? k with _ | y
  · rw [hx] at h
    cases h
    exact ⟨rfl, List.get?_eq_none.mp hx⟩
  · rw [hx] at h; cases h

/-- General form of the per-constituency loop: when it succeeds from start
index j, the k-th built Record combines the (j+k)-th name, the (j+k)-th
electorate figure and the decode of the k-th table alone. -/
theorem buildConstituencies_get_general (names elecs : List String) :
    ∀ (tables : List Node) (j : Nat) (cs : List Constituency),
      buildConstituencies names elecs tables j = .ok cs →
      ∀ k, k < tables.length →
        cs.get? k = (names.get? (j + k)).bind fun n =>
          (elecs.get? (j + k)).bind fun e =>
          (tables.get? k).map fun t => buildConstituency n e t := by
  intro tables
  induction tables with
  | nil => intro j cs _ k hk; simp at hk
  | cons t rest ih =>
    intro j cs h k hk
    simp only [buildConstituencies] at h
    rcases h1 : listIndex names j with e1 | n
    · rw [h1] at h; cases h
    · rw [h1] at h
      rcases h2 : listIndex elecs j with e2 | el
      · rw [h2] at h; cases h
      · rw [h2] at h
        rcases h3 : buildConstituencies names elecs rest (j + 1) with e3 | cs0
        · rw [h3] at h; cases h
        · rw [h3] at h
          cases h
          cases k with
          | zero =>
            simp only [Nat.add_zero, List.get?]
            rw [listIndex_ok names j n h1, listIndex_ok elecs j el h2]
            rfl
          | succ k =>
            have hk0 : k < rest.length := by simpa using Nat.lt_of_succ_lt_succ hk
            have := ih (j + 1) cs0 h3 k hk0
            have harith : j + 1 + k = j + (k + 1) := by omega
            rw [harith] at this
            simpa using this

/-- Every Record built by the per-constituency loop is the decode of some
table under some collected name and electorate figure. -/
theorem buildConstituencies_mem (names elecs : List String) :
    ∀ (tables : List Node) (j : Nat) (cs : List Constituency),
      buildConstituencies names elecs tables j = .ok cs →
      ∀ c ∈ cs, ∃ n e t, n ∈ names ∧ e ∈ elecs ∧ c = buildConstituency n e t := by
  intro tables
  induction tables with
  | nil =>
    intro j cs h c hc
    simp only [buildConstituencies] at h
    cases h
    simp at hc
  | cons t rest ih =>
    intro j cs h c hc
    simp only [buildConstituencies] at h
    rcases h1 : listIndex names j with e1 | n
    · rw [h1] at h; cases h
    · rw [h1] at h
      rcases h2 : listIndex elecs j with e2 | el
      · rw [h2] at h; cases h
      · rw [h2] at h
        rcases h3 : buildConstituencies names elecs rest (j + 1) with e3 | cs0
        · rw [h3] at h; cases h
        · rw [h3] at h
          cases h
          rcases List.mem_cons.mp hc with rfl | hc
          · exact ⟨n, el, t, List.get?_mem (listIndex_ok names j n h1),
              List.get?_mem (listIndex_ok elecs j el h2), rfl⟩
          · exact ih (j + 1) cs0 h3 c hc

/-- The only error the per-constituency loop produces is the record
IndexError. -/
theorem buildConstituencies_err (names elecs : List String) :
    ∀ (tables : List Node) (j : Nat) (e : PyError),
      buildConstituencies names elecs tables j = .error e → e = .recordIndexError := by
  intro tables
  induction tables with
  | nil => intro j e h; cases h
  | cons t rest ih =>
    intro j e h
    simp only [buildConstituencies] at h
    rcases h1 : listIndex names j with e1 | n
    · rw [h1] at h; cases h; exact (listIndex_err names j _ h1).1
    · rw [h1] at h
      rcases h2 : listIndex elecs j with e2 | el
      · rw [h2] at h; cases h; exact (listIndex_err elecs j _ h2).1
      · rw [h2] at h
        rcases h3 : buildConstituencies names elecs rest (j + 1) with e3 | cs0
        · rw [h3] at h; cases h; exact ih (j + 1) _ h3
        · rw [h3] at h; cases h

/-- When either side list is shorter than the remaining tables, the per-
constituency loop fails with the record IndexError. -/
theorem buildConstituencies_overflow (names elecs : List String) :
    ∀ (tables : List Node) (j : Nat), tables.length ≠ 0 →
      min names.length elecs.length < j + tables.length →
      buildConstituencies names elecs tables j = .error .recordIndexError := by
  intro tables
  induction tables with
  | nil => intro j h0 _; exact absurd rfl h0
  | cons t rest ih =>
    intro j _ hlt
    simp only [buildConstituencies]
    by_cases hj : min names.length elecs.length ≤ j
    · have : names.length ≤ j ∨ elecs.length ≤ j := by omega
      rcases this with hn | he
      · have : listIndex names j = .error .recordIndexError := by
          unfold listIndex
          rw [List.get?_eq_none.mpr hn]
        rw [this]
      · rcases h1 : listIndex names j with e1 | n
        · rw [(listIndex_err names j e1 h1).1]
        · have : listIndex elecs j = .error .recordIndexError := by
            unfold listIndex
            rw [List.get?_eq_none.mpr he]
          rw [this]
    · have hrest : rest.length ≠ 0 := by
        simp only [List.length_cons] at hlt
        intro h0
        rw [h0] at hlt
        omega
      have hlt2 : min names.length elecs.length < (j + 1) + rest.length := by
        simp only [List.length_cons] at hlt
        omega
      have hn : j < names.length := by omega
      have he : j < elecs.length := by omega
      rcases h1 : listIndex names j with e1 | n
      · exfalso
        have := (listIndex_err names j e1 h1).2
        omega
      · rcases h2 : listIndex elecs j with e2 | el
        · exfalso
          have := (listIndex_err elecs j e2 h2).2
          omega
        · rw [ih (j + 1) hrest hlt2]

/-- The only error the electorate scan produces is the attribute error. -/
theorem collectElectorates_err :
    ∀ (ps : List Node) (e : PyError),
      collectElectorates ps = .error e → e = .attributeError := by
  intro ps
  induction ps with
  | nil => intro e h; cases h
  | cons p rest ih =>
    intro e h
    simp only [collectElectorates] at h
    rcases hm : searchElectorate (nodeText p).data with _ | m
    · rw [hm] at h; cases h; rfl
    · rw [hm] at h
      rcases hrec : collectElectorates rest with e0 | vs
      · rw [hrec] at h; cases h; exact ih _ hrec
      · rw [hrec] at h; cases h

/-- The assembly loop distributes over list append. -/
theorem assembleRows_append :
    ∀ (xs ys : List Constituency),
      assembleRows (xs ++ ys) = assembleRows xs ++ assembleRows ys := by
  intro xs ys
  induction xs with
  | nil => rfl
  | cons c rest ih =>
    simp only [List.cons_append, assembleRows, List.append_eq, ih, List.append_assoc]

/-- Every assembled row comes from a Record whose conversion succeeded. -/
theorem mem_assembleRows :
    ∀ (cs : List Constituency) (r : Row), r ∈ assembleRows cs →
      ∃ c ∈ cs, ∃ rs, c.to_pandas = .ok rs ∧ r ∈ rs := by
  intro cs
  induction cs with
  | nil => intro r h; simp [assembleRows] at h
  | cons c rest ih =>
    intro r h
    simp only [assembleRows] at h
    rcases List.mem_append.mp h with h | h
    · rcases hp : c.to_pandas with e | rs
      · rw [hp] at h; simp at h
      · rw [hp] at h
        exact ⟨c, List.mem_cons_self _ _, rs, hp, h⟩
    · rcases ih r h with ⟨c0, hc0, rs, hok, hr⟩
      exact ⟨c0, List.mem_cons_of_mem _ hc0, rs, hok, hr⟩

/-- With six columns of equal length, the populated frame has one row per
entry. -/
theorem zipRows_length :
    ∀ (ns cs ps vs qs es : List String),
      cs.length = ns.length → ps.length = ns.length → vs.length = ns.length →
      qs.length = ns.length → es.length = ns.length →
      (zipRows ns cs ps vs qs es).length = ns.length := by
  intro ns
  induction ns with
  | nil =>
    intro cs ps vs qs es h1 h2 h3 h4 h5
    simp only [List.length_nil, List.length_eq_zero] at h1 h2 h3 h4 h5
    subst h1; subst h2; subst h3; subst h4; subst h5
    rfl
  | cons n ns ih =>
    intro cs ps vs qs es h1 h2 h3 h4 h5
    rcases cs with _ | ⟨c, cs⟩; · simp at h1
    rcases ps with _ | ⟨p, ps⟩; · simp at h2
    rcases vs with _ | ⟨v, vs⟩; · simp at h3
    rcases qs with _ | ⟨q, qs⟩; · simp at h4
    rcases es with _ | ⟨e, es⟩; · simp at h5
    simp only [zipRows, List.length_cons, Nat.succ.injEq] at h1 h2 h3 h4 h5 ⊢
    exact ih cs ps vs qs es h1 h2 h3 h4 h5

/-- Each field of a populated row is a member of its column. -/
theorem mem_zipRows :
    ∀ (ns cs ps vs qs es : List String) (r : Row), r ∈ zipRows ns cs ps vs qs es →
      r.names ∈ ns ∧ r.candidates ∈ cs ∧ r.parties ∈ ps ∧ r.votes ∈ vs ∧
        r.percent ∈ qs ∧ r.electorate ∈ es := by
  intro ns
  induction ns with
  | nil => intro cs ps vs qs es r h; simp [zipRows] at h
  | cons n ns ih =>
    intro cs ps vs qs es r h
    rcases cs with _ | ⟨c, cs⟩; · simp [zipRows] at h
    rcases ps with _ | ⟨p, ps⟩; · simp [zipRows] at h
    rcases vs with _ | ⟨v, vs⟩; · simp [zipRows] at h
    rcases qs with _ | ⟨q, qs⟩; · simp [zipRows] at h
    rcases es with _ | ⟨e, es⟩; · simp [zipRows] at h
    simp only [zipRows, List.mem_cons] at h
    rcases h with rfl | h
    · simp
    · have := ih cs ps vs qs es r h
      simp only [List.mem_cons]
      tauto

/-- With the three variable columns matching the candidate count, to_pandas
succeeds with the populated frame. -/
theorem to_pandas_ok (c : Constituency)
    (h1 : c.parties.length = c.candidates.length)
    (h2 : c.votes.length = c.candidates.length)
    (h3 : c.percent.length = c.candidates.length) :
    c.to_pandas = .ok (zipRows (List.replicate c.candidates.length c.name)
      c.candidates c.parties c.votes c.percent
      (List.replicate c.candidates.length c.electorate)) := by
  unfold Constituency.to_pandas
  rw [if_pos]
  · simp
  · simp [h1, h2, h3]

/-- Fields of a row produced by to_pandas: the name and electorate verbatim,
the rest members of their sequences. -/
theorem to_pandas_mem (c : Constituency) (rs : List Row) (r : Row)
    (hok : c.to_pandas = .ok rs) (hr : r ∈ rs) :
    r.names = c.name ∧ r.candidates ∈ c.candidates ∧ r.parties ∈ c.parties ∧
      r.votes ∈ c.votes ∧ r.percent ∈ c.percent ∧ r.electorate = c.electorate := by
  unfold Constituency.to_pandas at hok
  by_cases hc : c.candidates.length = (List.replicate c.candidates.length c.name).length ∧
      c.parties.length = (List.replicate c.candidates.length c.name).length ∧
      c.votes.length = (List.replicate c.candidates.length c.name).length ∧
      c.percent.length = (List.replicate c.candidates.length c.name).length ∧
      (List.replicate (List.replicate c.candidates.length c.name).length
        c.electorate).length = (List.replicate c.candidates.length c.name).length
  · rw [if_pos hc] at hok
    cases hok
    have := mem_zipRows _ _ _ _ _ _ r hr
    refine ⟨List.eq_of_mem_replicate this.1, this.2.1, this.2.2.1, this.2.2.2.1,
      this.2.2.2.2.1, ?_⟩
    have he := this.2.2.2.2.2
    simp only [List.length_replicate] at he
    exact List.eq_of_mem_replicate he
  · rw [if_neg hc] at hok
    cases hok

/-- With mismatched sequence lengths, to_pandas raises the ValueError. -/
theorem to_pandas_err (c : Constituency)
    (h : ¬(c.parties.length = c.candidates.length ∧
        c.votes.length = c.candidates.length ∧
        c.percent.length = c.candidates.length)) :
    c.to_pandas = .error .valueError := by
  unfold Constituency.to_pandas
  rw [if_neg]
  intro hcond
  apply h
  simp only [List.length_replicate] at hcond
  exact ⟨hcond.2.1, hcond.2.2.1, hcond.2.2.2.1⟩

/-- C1 is falsified on a percentage cell with an interior percent sign: the
decode loop removes every percent character, while the claim strips only a
trailing one, so the decoded value differs from the value the claim
predicts. -/
theorem C1_counterexample :
    (buildConstituency "X" "E" tableInteriorPercent).percent = ["12"] ∧
    specStripTrailingPercent (pyReplace "1%2%" "," "") = "1%2" ∧
    (buildConstituency "X" "E" tableInteriorPercent).percent
      ≠ [specStripTrailingPercent (pyReplace "1%2%" "," "")] := by
  refine ⟨rfl, rfl, ?_⟩
  decide

/-- C1 (amended): for every nested table the decode loop consumes the flat
row-major cell stream with a running index starting at 0 and incremented
after every cell; cells at index 0 mod 4 become candidates with every
comma and asterisk removed, index 1 mod 4 parties and index 2 mod 4 votes
with commas removed, and index 3 mod 4 percentages with commas and every
percent character (not only a trailing one) removed. -/
theorem C1_decode_cycle (t : Node) (name elec : String) :
    (buildConstituency name elec t).candidates
        = (selectMod4 0 (tableCells t) 0).map
          (fun s => pyReplace (pyReplace s "," "") "*" "") ∧
    (buildConstituency name elec t).parties
        = (selectMod4 1 (tableCells t) 0).map (fun s => pyReplace s "," "") ∧
    (buildConstituency name elec t).votes
        = (selectMod4 2 (tableCells t) 0).map (fun s => pyReplace s "," "") ∧
    (buildConstituency name elec t).percent
        = (selectMod4 3 (tableCells t) 0).map
          (fun s => pyReplace (pyReplace s "," "") "%" "") := by
  rw [buildConstituency_eq]
  exact ⟨rfl, rfl, rfl, rfl⟩

/-- C2 (confirmed): for every Record whose four sequences are of equal length,
the row conversion succeeds, yields exactly as many rows as candidates,
and every row carries the Record name and electorate verbatim. -/
theorem C2_wellformed_rows (c : Constituency)
    (h : c.parties.length = c.candidates.length ∧
      c.votes.length = c.candidates.length ∧
      c.percent.length = c.candidates.length) :
    (∀ err : ShapeError, c.to_pandas ≠ .error err) ∧
    ∀ rows, c.to_pandas = .ok rows →
      rows.length = c.candidates.length ∧
      ∀ r ∈ rows, r.names = c.name ∧ r.electorate = c.electorate := by
  have hok := to_pandas_ok c h.1 h.2.1 h.2.2
  constructor
  · intro err hcontra
    rw [hok] at hcontra
    cases hcontra
  · intro rows hrows
    rw [hok] at hrows
    cases hrows
    constructor
    · rw [zipRows_length] <;> simp [h.1, h.2.1, h.2.2]
    · intro r hr
      have := mem_zipRows _ _ _ _ _ _ r hr
      refine ⟨List.eq_of_mem_replicate this.1, List.eq_of_mem_replicate this.2.2.2.2.2⟩

/-- C2 witness: the theorem applied to the concrete well-formed Record
conAnytown. -/
theorem C2_witness :
    ([rowAnytown].length = conAnytown.candidates.length) ∧
    (rowAnytown.names = conAnytown.name ∧ rowAnytown.electorate = conAnytown.electorate) :=
  ⟨((C2_wellformed_rows conAnytown (by decide)).2 [rowAnytown] rfl).1,
    ((C2_wellformed_rows conAnytown (by decide)).2 [rowAnytown] rfl).2 rowAnytown (by decide)⟩

/-- C3 (confirmed): for every Record whose four sequences are not all of equal
length, the conversion fails with the ShapeError and the assembly loop
contributes zero rows for it while keeping the rows of all remaining
Records. -/
theorem C3_malformed_skipped (c : Constituency) (pre post : List Constituency)
    (h : ¬(c.parties.length = c.candidates.length ∧
      c.votes.length = c.candidates.length ∧
      c.percent.length = c.candidates.length)) :
    c.to_pandas = .error .valueError ∧
    assembleRows (pre ++ c :: post) = assembleRows pre ++ assembleRows post := by
  have herr := to_pandas_err c h
  refine ⟨herr, ?_⟩
  rw [assembleRows_append]
  simp only [assembleRows, herr, List.nil_append]

/-- C3 witness: the theorem applied to the concrete mismatched Record
conMismatched between well-formed neighbours. -/
theorem C3_witness :
    conMismatched.to_pandas = .error .valueError ∧
    assembleRows ([conAnytown] ++ conMismatched :: []) =
      assembleRows [conAnytown] ++ assembleRows [] :=
  C3_malformed_skipped conMismatched [conAnytown] [] (by decide)

/-- The electorate scan in closed form: the collected values when every
paragraph matches, the attribute error otherwise. -/
theorem collectElectorates_scan :
    ∀ ps : List Node, collectElectorates ps =
      if ps.all (fun p => (searchElectorate (nodeText p).data).isSome) then
        .ok (ps.map fun p =>
          pyReplace (pyReplace (String.mk ((searchElectorate (nodeText p).data).getD []))
            "Electorate: " "") "," "")
      else .error .attributeError := by
  intro ps
  induction ps with
  | nil => rfl
  | cons p rest ih =>
    simp only [collectElectorates, List.all_cons, List.map_cons]
    rcases hm : searchElectorate (nodeText p).data with _ | m
    · simp [hm]
    · rw [ih]
      by_cases hall : rest.all (fun p => (searchElectorate (nodeText p).data).isSome) = true
      · simp [hm, hall]
      · simp only [Bool.not_eq_true] at hall
        simp [hm, hall]

/-- C4 is falsified on a document whose single top-level table holds a nested
table: fewer than two top-level table elements exist, yet parse succeeds,
because find_all counts tables anywhere in pre-order. -/
theorem C4_counterexample :
    (specTopLevelTables docOneTopTable).length < 2 ∧ parse docOneTopTable = .ok [] := by
  exact ⟨by decide, rfl⟩

/-- C4 (amended): parse selects the second table element in document pre-
order, nested tables included, and fails with the structure IndexError
exactly when the whole document holds fewer than two table elements; the
failure happens before any Record is built. -/
theorem C4_second_table_in_preorder (doc : List Node) :
    parse doc = .error .structureError ↔ (findAllList "table" doc).length < 2 := by
  constructor
  · intro h
    unfold parse at h
    rcases hbt : (findAllList "table" doc).get? 1 with _ | bt
    · have := List.get?_eq_none.mp hbt
      omega
    · exfalso
      rw [hbt] at h
      dsimp only at h
      rcases hef : collectElectorateFigures bt with e | elecs
      · rw [hef] at h
        dsimp only at h
        cases h
        exact PyError.noConfusion (collectElectorates_err _ _ hef)
      · rw [hef] at h
        dsimp only at h
        rcases hbc : buildConstituencies (collectConstituencyNames bt) elecs
            (descendants "table" bt) 0 with e | cs
        · rw [hbc] at h
          dsimp only at h
          cases h
          exact PyError.noConfusion (buildConstituencies_err _ _ _ _ _ hbc)
        · rw [hbc] at h
          dsimp only at h
          cases h
  · intro hlen
    unfold parse
    rw [List.get?_eq_none.mpr (by omega)]

/-- C5 is falsified on a results table holding a paragraph with no electorate
figure: the block is not skipped, parse aborts with the attribute error of
calling group on a failed search. -/
theorem C5_counterexample :
    searchElectorate ("hello" : String).data = none ∧
    parse docPlainParagraph = .error .attributeError := ⟨rfl, rfl⟩

/-- C5 (amended): the electorate scan matches every paragraph block against
the electorate pattern; when every block matches, the matched digits with
separators stripped are collected in order - every collected value is
digits only - and when any block has no match the scan aborts with the
attribute error instead of skipping that block. -/
theorem C5_paragraph_scan (ps : List Node) :
    (collectElectorates ps =
      if ps.all (fun p => (searchElectorate (nodeText p).data).isSome) then
        .ok (ps.map fun p =>
          pyReplace (pyReplace (String.mk ((searchElectorate (nodeText p).data).getD []))
            "Electorate: " "") "," "")
      else .error .attributeError) ∧
    ∀ es, collectElectorates ps = .ok es →
      ∀ e ∈ es, e.data.all (fun ch => ch.isDigit) = true :=
  ⟨collectElectorates_scan ps,
    fun es h e he => (collectElectorates_ok_mem ps es h e he).2⟩

/-- C5 witness: the theorem applied to the concrete electorate paragraph of
the example document. -/
theorem C5_witness : ("54321" : String).data.all (fun ch => ch.isDigit) = true :=
  (C5_paragraph_scan [Node.elem "p" [Node.text "Electorate: 54,321"]]).2
    ["54321"] rfl "54321" (by decide)

/-- C6 is falsified on the example document: the single output row serialises
to six comma-delimited fields, the sixth being the electorate figure, not
five. -/
theorem C6_counterexample :
    parse docMain = .ok [rowAnytown] ∧
    (rowFields rowAnytown).length = 6 ∧ (rowFields rowAnytown).length ≠ 5 ∧
    rowAnytown.electorate = "54321" ∧
    csvLine rowAnytown = "Anytown,J. Doe,Indep,1234,45.6,54321" :=
  ⟨rfl, rfl, by decide, rfl, rfl⟩

/-- C6 (amended): every row of the merged final table, and of the csv written
from it, carries exactly six ordered fields - name, candidate, party,
votes, percent, electorate - with no header row and no index column; the
electorate value survives the per-Record conversion into the merged table
and is one of the collected electorate figures. -/
theorem C6_six_fields_per_row (doc : List Node) (rows : List Row) (big_table : Node)
    (es : List String)
    (hbt : (findAllList "table" doc).get? 1 = some big_table)
    (hes : collectElectorateFigures big_table = .ok es)
    (h : parse doc = .ok rows) (r : Row) (hr : r ∈ rows) :
    rowFields r = [r.names, r.candidates, r.parties, r.votes, r.percent, r.electorate] ∧
    (rowFields r).length = 6 ∧ r.electorate ∈ es := by
  refine ⟨rfl, rfl, ?_⟩
  unfold parse at h
  rw [hbt] at h
  dsimp only at h
  rw [hes] at h
  dsimp only at h
  rcases hbc : buildConstituencies (collectConstituencyNames big_table) es
      (descendants "table" big_table) 0 with e | cs
  · rw [hbc] at h
    dsimp only at h
    cases h
  · rw [hbc] at h
    dsimp only at h
    cases h
    rcases List.mem_map.mp hr with ⟨r0, hr0, rfl⟩
    rcases mem_assembleRows cs r0 hr0 with ⟨c, hc, rs, hok, hrs⟩
    rcases buildConstituencies_mem _ _ _ _ _ hbc c hc with ⟨n, e, t, _, he, rfl⟩
    have hf := to_pandas_mem _ rs r0 hok hrs
    have helec : (buildConstituency n e t).electorate = e := by
      rw [buildConstituency_eq]
    show r0.electorate ∈ es
    rw [hf.2.2.2.2.2, helec]
    exact he

/-- C6 witness: the theorem applied to the example document and its single
output row. -/
theorem C6_witness :
    rowFields rowAnytown = [rowAnytown.names, rowAnytown.candidates, rowAnytown.parties,
      rowAnytown.votes, rowAnytown.percent, rowAnytown.electorate] ∧
    (rowFields rowAnytown).length = 6 ∧ rowAnytown.electorate ∈ ["54321"] :=
  C6_six_fields_per_row docMain [rowAnytown] docMainResults ["54321"] rfl rfl rfl
    rowAnytown (by decide)

/-- C7 (confirmed): comma-stripping is total: for every document on which
parse succeeds, no field of any output row, the name column included,
holds a comma character. -/
theorem C7_comma_stripping_total (doc : List Node) (rows : List Row)
    (h : parse doc = .ok rows) :
    ∀ r ∈ rows, noComma r.names ∧ noComma r.candidates ∧ noComma r.parties ∧
      noComma r.votes ∧ noComma r.percent ∧ noComma r.electorate := by
  unfold parse at h
  rcases hbt : (findAllList "table" doc).get? 1 with _ | bt
  · rw [hbt] at h; cases h
  · rw [hbt] at h
    dsimp only at h
    rcases hef : collectElectorateFigures bt with e | elecs
    · rw [hef] at h
      dsimp only at h
      cases h
    · rw [hef] at h
      dsimp only at h
      rcases hbc : buildConstituencies (collectConstituencyNames bt) elecs
          (descendants "table" bt) 0 with e | cs
      · rw [hbc] at h
        dsimp only at h
        cases h
      · rw [hbc] at h
        dsimp only at h
        cases h
        intro r hr
        rcases List.mem_map.mp hr with ⟨r0, hr0, rfl⟩
        rcases mem_assembleRows cs r0 hr0 with ⟨c, hc, rs, hok, hrs⟩
        rcases buildConstituencies_mem _ _ _ _ _ hbc c hc with ⟨n, e, t, _, he, rfl⟩
        have hf := to_pandas_mem _ rs r0 hok hrs
        have hnc := buildConstituency_noComma n e t
        have helec : (buildConstituency n e t).electorate = e := by
          rw [buildConstituency_eq]
        have hecomma : noComma e := (collectElectorates_ok_mem _ elecs hef e he).1
        refine ⟨noComma_pyReplaceComma _, hnc.1 _ hf.2.1, hnc.2.1 _ hf.2.2.1,
          hnc.2.2.1 _ hf.2.2.2.1, hnc.2.2.2 _ hf.2.2.2.2.1, ?_⟩
        show noComma (stripRowNameCommas r0).electorate
        have hre : (stripRowNameCommas r0).electorate = e := by
          show r0.electorate = e
          rw [hf.2.2.2.2.2, helec]
        rw [hre]
        exact hecomma

/-- C7 witness: the theorem applied to the example document and its single
output row. -/
theorem C7_witness :
    noComma rowAnytown.names ∧ noComma rowAnytown.candidates ∧
    noComma rowAnytown.parties ∧ noComma rowAnytown.votes ∧
    noComma rowAnytown.percent ∧ noComma rowAnytown.electorate :=
  C7_comma_stripping_total docMain [rowAnytown] rfl rowAnytown (by decide)

/-- C8 (confirmed): the extraction is deterministic in its input: two runs of
parse on the same document yield equal tables and byte-identical csv
serialisations. -/
theorem C8_deterministic (doc : List Node) (r1 r2 : Except PyError (List Row))
    (h1 : parse doc = r1) (h2 : parse doc = r2) :
    r1 = r2 ∧ r1.map toCsv = r2.map toCsv := by
  subst h1
  subst h2
  exact ⟨rfl, rfl⟩

/-- C8 witness: the theorem applied to two runs on the example document. -/
theorem C8_witness :
    (Except.ok [rowAnytown] : Except PyError (List Row)) = .ok [rowAnytown] ∧
    (Except.ok [rowAnytown] : Except PyError (List Row)).map toCsv
      = (Except.ok [rowAnytown] : Except PyError (List Row)).map toCsv :=
  C8_deterministic docMain (.ok [rowAnytown]) (.ok [rowAnytown]) rfl rfl

/-- C9 (confirmed): when the results table holds more nested tables than
collected bold name markers or than collected electorate figures, the per-
constituency loop aborts the whole extraction with the record IndexError;
the mismatch is not recovered per constituency the way shape errors are. -/
theorem C9_unmatched_tables_abort (names elecs : List String) (tables : List Node)
    (h : min names.length elecs.length < tables.length) :
    buildConstituencies names elecs tables 0 = .error .recordIndexError ∧
    ∀ (doc : List Node) (big_table : Node),
      (findAllList "table" doc).get? 1 = some big_table →
      collectConstituencyNames big_table = names →
      collectElectorateFigures big_table = .ok elecs →
      descendants "table" big_table = tables →
      parse doc = .error .recordIndexError := by
  have h0 : tables.length ≠ 0 := by omega
  have hb := buildConstituencies_overflow names elecs tables 0 h0 (by omega)
  refine ⟨hb, ?_⟩
  intro doc big_table hbt hn he ht
  unfold parse
  rw [hbt]
  dsimp only
  rw [he]
  dsimp only
  rw [hn, ht, hb]

/-- C9 witness: the theorem applied to a document whose results table holds
one nested table and no side-list entries. -/
theorem C9_witness : parse docUnmatchedTable = .error .recordIndexError :=
  (C9_unmatched_tables_abort [] [] [Node.elem "table" []] (by decide)).2
    docUnmatchedTable (Node.elem "table" [Node.elem "table" []]) rfl rfl rfl rfl

/-- C10 (confirmed): the running decode index is reset to 0 for every nested
table, so the k-th built Record is the decode of the k-th table alone: the
field role of a cell depends only on its position within its own table,
and the cell counts of earlier tables, malformed ones included, never
shift later assignments. -/
theorem C10_count_reset_per_table (names elecs : List String) (tables : List Node)
    (cs : List Constituency)
    (h : buildConstituencies names elecs tables 0 = .ok cs)
    (k : Nat) (hk : k < tables.length) :
    cs.get? k = (names.get? k).bind fun n => (elecs.get? k).bind fun e =>
      (tables.get? k).map fun t => buildConstituency n e t := by
  have := buildConstituencies_get_general names elecs tables 0 cs h k hk
  simpa using this

/-- C10 witness: the theorem applied to a malformed three-cell table followed
by a well-formed table. -/
theorem C10_witness :
    ([buildConstituency "A" "7" tableThreeCells,
      buildConstituency "B" "8" tableFourCells] : List Constituency).get? 1
      = ((["A", "B"] : List String).get? 1).bind fun n =>
        ((["7", "8"] : List String).get? 1).bind fun e =>
        (([tableThreeCells, tableFourCells] : List Node).get? 1).map fun t =>
          buildConstituency n e t :=
  C10_count_reset_per_table ["A", "B"] ["7", "8"] [tableThreeCells, tableFourCells]
    [buildConstituency "A" "7" tableThreeCells, buildConstituency "B" "8" tableFourCells]
    rfl 1 (by decide)
